import Mathlib

/-!
Shallow embedding of the mbox-parsing extractor (`mbox_parsing/mbox_parsing.py`)
and the CSV writer (`csv_writer/csv_writer.py`) of the codeface-extraction
repository, together with theorems settling the specification claims.

Conventions of the embedding:
* e-mail messages (Python `email.message.Message` trees as delivered by
  `mailbox.mbox`) are the inductive `MPart`: a leaf carries its declared
  content type and its raw payload bytes (`get_payload(decode=True)`),
  a `multi` node carries its content type and the list of sub-parts;
* machine strings are Lean `String`, raw byte payloads are `List Nat`;
* Python calls that can raise are embedded in `Except String`;
* Python's bytes-to-text decoding with `errors="replace"` never raises but
  its exact output is irrelevant to every claim, so the development is
  parameterised over an arbitrary total decoder `decode : List Nat → String`;
* the on-disk state touched by `__get_index` is the record `IndexFS`, and
  the filesystem/index side effects are recorded as an `Op` trace.
-/

/-- Generic sequence prefix test (used for `str.startswith`-like checks). -/
def startsWithSeq {α : Type} [BEq α] : List α → List α → Bool
  | [], _ => true
  | _ :: _, [] => false
  | a :: as, b :: bs => a == b && startsWithSeq as bs

/-- Generic contiguous-subsequence test: Python's `needle in hay`. -/
def containsSeq {α : Type} [BEq α] (needle : List α) : List α → Bool
  | [] => startsWithSeq needle []
  | h :: t => startsWithSeq needle (h :: t) || containsSeq needle t

mutual

/-- An e-mail message part: either a non-multipart leaf (declared content
type plus raw decoded payload bytes) or a multipart container. -/
inductive MPart where
  | leaf (ctype : String) (payload : List Nat)
  | multi (ctype : String) (parts : MPartList)

/-- A list of sibling message parts (a separate inductive so that all
recursions over the tree are structural). -/
inductive MPartList where
  | nil
  | cons (p : MPart) (ps : MPartList)

end

/-- Build an `MPartList` from an ordinary list (for concrete messages). -/
def subparts : List MPart → MPartList
  | [] => .nil
  | p :: ps => .cons p (subparts ps)

/-- Python `Message.is_multipart()`. -/
def is_multipart : MPart → Bool
  | .leaf _ _ => false
  | .multi _ _ => true

/-- Python `Message.get_content_type()` (the declared content type). -/
def get_content_type : MPart → String
  | .leaf c _ => c
  | .multi c _ => c

/-- Python `Message.get_payload(decode=True)`: raw bytes for a non-multipart
part, `None` for a multipart container. -/
def get_payload : MPart → Option (List Nat)
  | .leaf _ p => some p
  | .multi _ _ => none

mutual

/-- Python `Message.walk()`: depth-first pre-order traversal, the part
itself first, then all sub-parts recursively. -/
def walk : MPart → List MPart
  | .leaf c p => [.leaf c p]
  | .multi c ps => .multi c ps :: walkList ps

/-- Concatenated `walk` of a list of sibling parts. -/
def walkList : MPartList → List MPart
  | .nil => []
  | .cons p ps => walk p ++ walkList ps

end

/-- Python `str.lower()`, character by character. -/
def pyLower (s : String) : String := String.mk (s.data.map Char.toLower)

/-- The `__text_indicator` constant of `__mbox_getbody`. -/
def textIndicator : String := "text/"

/-- The test `__text_indicator in part.get_content_type().lower()`
(substring containment on the lower-cased declared content type). -/
def hasTextType (ctype : String) : Bool :=
  containsSeq textIndicator.data (pyLower ctype).data

/-- One step of the inner loop of `__mbox_getbody`
(`for subpart in part.walk(): if ...: body = subpart.get_payload(decode=True)`). -/
def innerStep (body : Option (List Nat)) (subpart : MPart) : Option (List Nat) :=
  if hasTextType (get_content_type subpart) then get_payload subpart else body

/-- One step of the outer loop of `__mbox_getbody`
(`for part in message.walk(): ...`). -/
def outerStep (body : Option (List Nat)) (part : MPart) : Option (List Nat) :=
  if is_multipart part then (walk part).foldl innerStep body
  else if hasTextType (get_content_type part) then get_payload part
  else body

/-- The value of the Python variable `body` at the end of the loop section of
`__mbox_getbody` (`None` embedded as `none`). -/
def getBodyRaw (message : MPart) : Option (List Nat) :=
  if is_multipart message then (walk message).foldl outerStep none
  else if hasTextType (get_content_type message) then get_payload message
  else none

/-- Python `__mbox_getbody(message)` including the final
`return str(body, errors="replace")`.  When the loops found a bytes payload,
`str(bytes, errors="replace")` decodes it (embedded by the total decoder
`decode`).  When no textual part was found the code sets `body = ' '`, a
`str`, and `str(' ', errors="replace")` raises
`TypeError: decoding str is not supported` in Python 3, embedded as
`.error`.  (The same happens when the last textual-typed part was itself a
multipart container, whose `get_payload(decode=True)` is `None`.) -/
def mbox_getbody (decode : List Nat → String) (message : MPart) :
    Except String String :=
  match getBodyRaw message with
  | some bs => .ok (decode bs)
  | none => .error "TypeError: decoding str is not supported"

/-- Concrete decoder used for witnesses and counterexamples: each byte is
read as the Unicode code point it denotes. -/
def decodeAscii (bs : List Nat) : String :=
  String.mk (bs.map Char.ofNat)

/-- Payload bytes of a leaf part (dummy `[]` on a container). -/
def leafPayload : MPart → List Nat
  | .leaf _ p => p
  | .multi _ _ => []

/-- Step function computing the last textual-typed part of a traversal. -/
def lastStep (acc : Option MPart) (p : MPart) : Option MPart :=
  if hasTextType (get_content_type p) then some p else acc

/-- The last part of `l` whose declared content type contains `text/`. -/
def lastTextual (l : List MPart) : Option MPart := l.foldl lastStep none

/-- First-some choice on options (helper for fold characterizations). -/
def orD {α : Type} (o acc : Option α) : Option α :=
  match o with
  | some t => some t
  | none => acc

/-- Result of overwriting a body variable with the payload of the last
textual part, if any (helper for fold characterizations). -/
def innerRes (o : Option MPart) (b : Option (List Nat)) : Option (List Nat) :=
  match o with
  | some t => get_payload t
  | none => b

theorem foldl_lastStep_init (l : List MPart) :
    ∀ acc : Option MPart, l.foldl lastStep acc = orD (lastTextual l) acc := by
  simp only [lastTextual]
  induction l with
  | nil => intro acc; rfl
  | cons p l ih =>
    intro acc
    simp only [List.foldl_cons]
    rw [ih (lastStep acc p), ih (lastStep none p)]
    by_cases h : hasTextType (get_content_type p) <;>
      cases hx : l.foldl lastStep none <;>
        simp [lastStep, h, orD]

theorem foldl_innerStep (l : List MPart) :
    ∀ b : Option (List Nat), l.foldl innerStep b = innerRes (lastTextual l) b := by
  simp only [lastTextual]
  induction l with
  | nil => intro b; rfl
  | cons p l ih =>
    intro b
    simp only [List.foldl_cons]
    rw [ih (innerStep b p), foldl_lastStep_init l (lastStep none p)]
    simp only [lastTextual]
    by_cases h : hasTextType (get_content_type p) <;>
      cases hx : l.foldl lastStep none <;>
        simp [innerStep, lastStep, h, orD, innerRes]

theorem lastStep_mem (l : List MPart) :
    ∀ (acc : Option MPart) (t : MPart), l.foldl lastStep acc = some t →
      (t ∈ l ∧ hasTextType (get_content_type t) = true) ∨ acc = some t := by
  induction l with
  | nil => intro acc t h; exact Or.inr h
  | cons p l ih =>
    intro acc t h
    rcases ih (lastStep acc p) t h with hin | hacc
    · exact Or.inl ⟨List.mem_cons_of_mem _ hin.1, hin.2⟩
    · by_cases hp : hasTextType (get_content_type p)
      · simp only [lastStep, hp, if_pos] at hacc
        cases hacc
        exact Or.inl ⟨List.mem_cons_self _ _, hp⟩
      · simp only [lastStep, hp, Bool.false_eq_true, ite_false] at hacc
        exact Or.inr hacc

theorem lastTextual_mem {l : List MPart} {t : MPart}
    (h : lastTextual l = some t) :
    t ∈ l ∧ hasTextType (get_content_type t) = true := by
  rcases lastStep_mem l none t h with hin | hacc
  · exact hin
  · cases hacc

mutual

theorem foldl_outer_walk : ∀ (m : MPart) (b : Option (List Nat)),
    (∀ p ∈ walk m, is_multipart p = true → hasTextType (get_content_type p) = false) →
    (walk m).foldl outerStep b = innerRes (lastTextual (walk m)) b
  | .leaf c pay, b, _ => by
    simp only [walk, List.foldl_cons, List.foldl_nil, outerStep, is_multipart,
      Bool.false_eq_true, ite_false, lastTextual, lastStep, innerRes]
    by_cases h : hasTextType (get_content_type (MPart.leaf c pay)) <;>
      simp [h, innerRes]
  | .multi c ps, b, h => by
    have hmem : MPart.multi c ps ∈ walk (MPart.multi c ps) := by
      simp [walk]
    have hct : hasTextType (get_content_type (MPart.multi c ps)) = false :=
      h _ hmem rfl
    have hsub : ∀ p ∈ walkList ps, is_multipart p = true →
        hasTextType (get_content_type p) = false := by
      intro p hp
      exact h p (by simp [walk, hp])
    have hlast : lastTextual (walk (MPart.multi c ps)) =
        lastTextual (walkList ps) := by
      simp only [lastTextual, walk, List.foldl_cons, lastStep, hct,
        Bool.false_eq_true, ite_false]
    have hstep : outerStep b (MPart.multi c ps) =
        innerRes (lastTextual (walkList ps)) b := by
      simp only [outerStep, is_multipart, if_pos]
      rw [foldl_innerStep (walk (MPart.multi c ps)) b, hlast]
    calc (walk (MPart.multi c ps)).foldl outerStep b
        = (walkList ps).foldl outerStep (outerStep b (MPart.multi c ps)) := by
          simp [walk]
      _ = innerRes (lastTextual (walkList ps))
            (outerStep b (MPart.multi c ps)) :=
          foldl_outer_walkList ps _ hsub
      _ = innerRes (lastTextual (walk (MPart.multi c ps))) b := by
          rw [hstep, hlast]
          cases hx : lastTextual (walkList ps) <;> simp [innerRes]

theorem foldl_outer_walkList : ∀ (ps : MPartList) (b : Option (List Nat)),
    (∀ p ∈ walkList ps, is_multipart p = true → hasTextType (get_content_type p) = false) →
    (walkList ps).foldl outerStep b = innerRes (lastTextual (walkList ps)) b
  | .nil, b, _ => by simp [walkList, lastTextual, innerRes]
  | .cons p ps, b, h => by
    have h1 : ∀ q ∈ walk p, is_multipart q = true →
        hasTextType (get_content_type q) = false := by
      intro q hq
      exact h q (by simp [walkList, hq])
    have h2 : ∀ q ∈ walkList ps, is_multipart q = true →
        hasTextType (get_content_type q) = false := by
      intro q hq
      exact h q (by simp [walkList, hq])
    have hlast : lastTextual (walkList (MPartList.cons p ps)) =
        orD (lastTextual (walkList ps)) (lastTextual (walk p)) := by
      simp only [lastTextual, walkList, List.foldl_append]
      exact foldl_lastStep_init (walkList ps) ((walk p).foldl lastStep none)
    calc (walkList (MPartList.cons p ps)).foldl outerStep b
        = (walkList ps).foldl outerStep ((walk p).foldl outerStep b) := by
          simp [walkList]
      _ = innerRes (lastTextual (walkList ps))
            (innerRes (lastTextual (walk p)) b) := by
          rw [foldl_outer_walk p b h1]
          exact foldl_outer_walkList ps _ h2
      _ = innerRes (lastTextual (walkList (MPartList.cons p ps))) b := by
          rw [hlast]
          cases hx : lastTextual (walkList ps) <;> simp [innerRes, orD]

end

example : mbox_getbody decodeAscii (MPart.leaf "text/plain" [104, 105]) = .ok "hi" := rfl

example :
    mbox_getbody decodeAscii
      (MPart.multi "multipart/mixed" (subparts [MPart.leaf "image/png" [137, 80]])) =
    .error "TypeError: decoding str is not supported" := rfl

example :
    mbox_getbody decodeAscii
      (MPart.multi "multipart/mixed"
        (subparts [MPart.leaf "text/plain" [65], MPart.leaf "text/plain" [66]])) =
    .ok "B" := rfl

/-- C1: a message whose only content part is an image attachment — no part
with a textual content type anywhere in the tree. -/
def imageOnlyMsg : MPart :=
  MPart.multi "multipart/mixed" (subparts [MPart.leaf "image/png" [137, 80, 78, 71]])

/-- C1: contrary to the claim, `__mbox_getbody` raises on a message with no
textual part.  The loops leave `body = None`, the fallback sets
`body = ' '` (a `str`), and the final `str(body, errors="replace")` then
raises `TypeError: decoding str is not supported`, because passing
`errors` to `str` requires a bytes-like object.  So a pure image
attachment is not indexed with a single-space body: indexing aborts. -/
theorem claim_c1_raises_on_image_only :
    mbox_getbody decodeAscii imageOnlyMsg =
      .error "TypeError: decoding str is not supported" := rfl

/-- C2 counterexample message: a multipart message with two sub-parts whose
declared content type begins with `text/` (payloads `A` and `B`) and a
third sub-part whose type merely contains `text/` (payload `C`). -/
def c2Msg : MPart :=
  MPart.multi "multipart/mixed"
    (subparts [MPart.leaf "text/plain" [65], MPart.leaf "text/plain" [66],
               MPart.leaf "xtext/x-odd" [67]])

/-- Decidable test used by C2's counterexample: declared content type
begins with `text/` (what the claim asserts is selected). -/
def beginsTextType (p : MPart) : Bool :=
  startsWithSeq textIndicator.data (pyLower (get_content_type p)).data

/-- C2: the claim is false.  On `c2Msg` the first sub-part whose content
type begins with `text/` carries payload `A` (byte 65), but
`__mbox_getbody` returns the decoded payload `C` (byte 67) of the *last*
sub-part whose content type merely *contains* `text/` as a substring:
each textual hit overwrites `body` (the loops have no break), and the
test is `"text/" in ctype.lower()`, not a prefix test. -/
theorem claim_c2_counterexample :
    (walk c2Msg).find? beginsTextType = some (MPart.leaf "text/plain" [65]) ∧
    mbox_getbody decodeAscii c2Msg = .ok (decodeAscii [67]) ∧
    decodeAscii [67] ≠ decodeAscii [65] := by
  refine ⟨rfl, rfl, ?_⟩
  decide

/-- C2 (amended): for every multipart message in which no multipart
container's own declared type contains `text/` (true of every real
message, whose containers are `multipart/*`), if some part of the tree
has a content type containing `text/` then `__mbox_getbody` returns the
decoded payload of the LAST such part in `walk` order. -/
theorem claim_c2_amended (decode : List Nat → String) (m t : MPart)
    (hm : is_multipart m = true)
    (hH : ∀ p ∈ walk m, is_multipart p = true →
      hasTextType (get_content_type p) = false)
    (hl : lastTextual (walk m) = some t) :
    mbox_getbody decode m = .ok (decode (leafPayload t)) := by
  have hmem := lastTextual_mem hl
  have hnotmul : is_multipart t = false := by
    cases ht : is_multipart t
    · rfl
    · rw [hH t hmem.1 ht] at hmem
      exact absurd hmem.2 (by simp)
  have hpay : get_payload t = some (leafPayload t) := by
    cases t with
    | leaf c p => rfl
    | multi c ps => simp [is_multipart] at hnotmul
  have hb := foldl_outer_walk m none hH
  rw [hl] at hb
  simp only [innerRes, hpay] at hb
  simp only [mbox_getbody, getBodyRaw, hm, if_pos, hb]

/-- C2 amended witness message: two `text/plain` parts, payloads `A`, `B`. -/
def c2WitnessMsg : MPart :=
  MPart.multi "multipart/alternative"
    (subparts [MPart.leaf "text/plain" [65], MPart.leaf "text/plain" [66]])

/-- C2 (amended) witness: on `c2WitnessMsg` the hypotheses hold and the
body is the decoded payload `B` of the last textual part. -/
theorem claim_c2_amended_witness :
    is_multipart c2WitnessMsg = true ∧
    (∀ p ∈ walk c2WitnessMsg, is_multipart p = true →
      hasTextType (get_content_type p) = false) ∧
    lastTextual (walk c2WitnessMsg) = some (MPart.leaf "text/plain" [66]) ∧
    mbox_getbody decodeAscii c2WitnessMsg =
      .ok (decodeAscii (leafPayload (MPart.leaf "text/plain" [66]))) :=
  ⟨rfl, by decide, rfl,
    claim_c2_amended decodeAscii c2WitnessMsg (MPart.leaf "text/plain" [66])
      rfl (by decide) rfl⟩

/-! ## Query engine (`__parse_execute` and the schema analyzer of `parse`) -/

/-- Separator class of the custom tokenizer
`StandardAnalyzer(expression=r"[^\s,:\"']+")`: whitespace, commas, colons,
and (double or single) quotation marks. -/
def isTokenSep (c : Char) : Bool :=
  c = ' ' || c = '\t' || c = '\n' || c = '\r' || c = '\x0b' || c = '\x0c' ||
  c = ',' || c = ':' || c = '"' || c = '\''

/-- Split a character stream into maximal runs of non-separator characters
(the regex `[^\s,:\"']+` of the analyzer). -/
def tokenizeChars (cur : List Char) : List Char → List (List Char)
  | [] => if cur.isEmpty then [] else [cur.reverse]
  | c :: rest =>
    if isTokenSep c then
      if cur.isEmpty then tokenizeChars [] rest
      else cur.reverse :: tokenizeChars [] rest
    else tokenizeChars (c :: cur) rest

/-- Default stop-word list of whoosh's `StandardAnalyzer`. -/
def STOP_WORDS : List String :=
  ["a", "an", "and", "are", "as", "at", "be", "by", "can", "for", "from",
   "have", "if", "in", "is", "it", "may", "not", "of", "on", "or", "tbd",
   "that", "the", "this", "to", "us", "we", "when", "will", "with", "yet",
   "you", "your"]

/-- The schema analyzer built in `parse`: regex tokenizer with the custom
expression, lower-casing, and the default stop filter (which also drops
tokens shorter than two characters). -/
def analyze (s : String) : List String :=
  ((tokenizeChars [] s.data).map (fun cs => String.mk (cs.map Char.toLower))).filter
    (fun t => decide (2 ≤ t.length) && !(STOP_WORDS.contains t))

example : analyze "Fix src/parser.c: see PATCH, thanks" =
    ["fix", "src/parser.c", "see", "patch", "thanks"] := rfl

/-- A parsed whoosh query over the `content` field: a phrase (the analyzed
tokens of a quoted string, which must occur consecutively) or a
conjunction. -/
inductive WQuery where
  | phrase (terms : List String)
  | and (q1 q2 : WQuery)

/-- Phrase matching: the term sequence occurs contiguously in the document's
token stream; a phrase with no surviving terms matches nothing. -/
def phraseMatch (terms toks : List String) : Bool :=
  !terms.isEmpty && containsSeq terms toks

/-- Whether a parsed query matches a document's analyzed token stream. -/
def qmatches : WQuery → List String → Bool
  | .phrase ts, toks => phraseMatch ts toks
  | .and q1 q2, toks => qmatches q1 toks && qmatches q2 toks

/-- A document of the index: the stored `messageID` field and the analyzed
`content` field (the extracted body). -/
structure IxDoc where
  messageID : String
  content : String
deriving DecidableEq

/-- Python `__parse_execute(artifact, schema, my_index, include_filepath)`.
The index is the list of its documents; the constructed query is
`'"artifact[0]" AND "artifact[1]"'` when `include_filepath` holds and
`'"artifact[1]"'` otherwise (each quoted string analyzed into a phrase by
the schema analyzer); the search runs with no result limit, and every
matching document yields the triple
`(artifact[0], artifact[1], r["messageID"])`. -/
def parse_execute (artifact : String × String) (ix : List IxDoc)
    (include_filepath : Bool) : List (String × String × String) :=
  let my_query : WQuery :=
    if include_filepath then
      .and (.phrase (analyze artifact.1)) (.phrase (analyze artifact.2))
    else
      .phrase (analyze artifact.2)
  (ix.filter (fun d => qmatches my_query (analyze d.content))).map
    (fun d => (artifact.1, artifact.2, d.messageID))

example :
    parse_execute ("src/parser.c", "parser.c")
      [⟨"m1", "fix in parser.c today"⟩, ⟨"m2", "unrelated text"⟩] false =
    [("src/parser.c", "parser.c", "m1")] := rfl

/-- C5: adding the mandatory file-path phrase can only narrow matches: for
any fixed index and artifact key, every result triple produced with
`include_filepath = true` is also produced with `include_filepath = false`. -/
theorem claim_c5_filepath_narrows (ix : List IxDoc) (artifact : String × String) :
    parse_execute artifact ix true ⊆ parse_execute artifact ix false := by
  intro x hx
  simp only [parse_execute, List.mem_map, List.mem_filter] at hx ⊢
  obtain ⟨d, ⟨hd, hq⟩, hxe⟩ := hx
  simp only [if_pos, qmatches, Bool.and_eq_true] at hq
  exact ⟨d, ⟨hd, hq.2⟩, hxe⟩

/-! ## Parallel search phase of `parse` -/

/-- Modelled behaviour of joblib's `Parallel(n_jobs=k)`: dispatching with
`n_jobs == 0` raises `ValueError`; any other job count executes all tasks
and collects their results in order. -/
def joblib_parallel {α β : Type} (n_jobs : Int) (tasks : List α)
    (f : α → β) : Except String (List β) :=
  if n_jobs = 0 then
    .error "ValueError: n_jobs == 0 in Parallel has no meaning"
  else
    .ok (tasks.map f)

/-- The parallel search phase of `parse`
(`num_cores = multiprocessing.cpu_count()` followed by
`Parallel(n_jobs=num_cores - 1)(delayed(__parse_execute)(commit, schema, ix,
include_filepath) for commit in artifacts)`): one `__parse_execute` call per
artifact key, with worker count exactly `num_cores - 1` and no guard. -/
def parse_search (num_cores : Nat) (artifacts : List (String × String))
    (ix : List IxDoc) (include_filepath : Bool) :
    Except String (List (List (String × String × String))) :=
  joblib_parallel ((num_cores : Int) - 1) artifacts
    (fun commit => parse_execute commit ix include_filepath)

/-- C3: the code does not guard the worker count.  On a single-core machine
`parse` passes `n_jobs = 1 - 1 = 0` to `Parallel`, which joblib rejects
with a `ValueError`, so the query batch does not execute — contradicting
the claimed minimum of one effective worker. -/
theorem claim_c3_single_core_fails :
    ((1 : Int) - 1 = 0) ∧
    parse_search 1 [("src/parser.c", "parse_args")] [] false =
      .error "ValueError: n_jobs == 0 in Parallel has no meaning" :=
  ⟨rfl, rfl⟩

/-! ## Commit/artifact extractor (`__get_artifacts`) -/

/-- Python `os.path.basename` on POSIX: the suffix after the last `/`. -/
def basenameChars (acc : List Char) : List Char → List Char
  | [] => acc.reverse
  | c :: rest =>
    if c = '/' then basenameChars [] rest else basenameChars (c :: acc) rest

/-- Python `os.path.basename(path)` (POSIX separator). -/
def basename (path : String) : String := String.mk (basenameChars [] path.data)

example : basename "src/util/parser.c" = "parser.c" := rfl
example : basename "parser.c" = "parser.c" := rfl
example : basename "src/" = "" := rfl

/-- One row of `commits.list` as consumed by `__get_artifacts`: of the 16
positional columns read by the `csv.DictReader`, only `file` and
`artifact` flow into the result. -/
structure CommitRow where
  file : String
  artifact : String

/-- The pair added to `commit_set` for one row: `(row["file"],
os.path.basename(row["file"]))` in files-as-artifacts mode, else
`(row["file"], row["artifact"])`. -/
def keyOf (files_as_artifacts : Bool) (row : CommitRow) : String × String :=
  if files_as_artifacts then (row.file, basename row.file)
  else (row.file, row.artifact)

/-- Python `__get_artifacts(results_folder, files_as_artifacts)`: iterate the
commit rows and collect the keys into the set `commit_set`. -/
def get_artifacts (rows : List CommitRow) (files_as_artifacts : Bool) :
    Finset (String × String) :=
  rows.foldl
    (fun commit_set row => insert (keyOf files_as_artifacts row) commit_set) ∅

theorem foldl_insert_eq {α : Type} [DecidableEq α] (l : List α) :
    ∀ s : Finset α, l.foldl (fun s x => insert x s) s = s ∪ l.toFinset := by
  induction l with
  | nil => intro s; simp
  | cons x l ih =>
    intro s
    simp only [List.foldl_cons, ih (insert x s), List.toFinset_cons]
    rw [Finset.insert_union, Finset.union_insert]

theorem get_artifacts_eq (rows : List CommitRow) (faa : Bool) :
    get_artifacts rows faa = (rows.map (keyOf faa)).toFinset := by
  unfold get_artifacts
  rw [← List.foldl_map (keyOf faa)
    (fun (s : Finset (String × String)) x => insert x s), foldl_insert_eq]
  exact Finset.empty_union _

theorem list_toFinset_image {α β : Type} [DecidableEq α] [DecidableEq β]
    (f : α → β) (l : List α) : (l.map f).toFinset = l.toFinset.image f := by
  ext b
  simp [List.mem_map, Finset.mem_image]

/-- C6: the derived artifact-key set is a true set — it equals the finite
set of keys produced row by row (duplicates collapse), and its cardinality
never exceeds the number of distinct `(file, artifact)` pairs present in
the commit table. -/
theorem claim_c6_true_set (rows : List CommitRow) (faa : Bool) :
    get_artifacts rows faa = (rows.map (keyOf faa)).toFinset ∧
    (get_artifacts rows faa).card ≤
      ((rows.map (fun r => (r.file, r.artifact))).dedup).length := by
  refine ⟨get_artifacts_eq rows faa, ?_⟩
  rw [get_artifacts_eq rows faa]
  have hcomp : rows.map (keyOf faa) =
      (rows.map (fun r => (r.file, r.artifact))).map
        (fun p => if faa then (p.1, basename p.1) else p) := by
    rw [List.map_map]
    rfl
  rw [hcomp, list_toFinset_image, ← List.card_toFinset]
  exact Finset.card_image_le

/-- C7: in files-as-artifacts mode, the artifact component of every derived
key is the base name (last path segment) of the key's file component. -/
theorem claim_c7_basename (rows : List CommitRow) (k : String × String)
    (hk : k ∈ get_artifacts rows true) : k.2 = basename k.1 := by
  rw [get_artifacts_eq, List.mem_toFinset] at hk
  obtain ⟨r, _, hkr⟩ := List.mem_map.mp hk
  rw [← hkr]
  rfl

/-- C7 witness: a concrete two-row table with a duplicate file; the derived
key `("src/parser.c", "parser.c")` satisfies the base-name property. -/
theorem claim_c7_basename_witness :
    (("src/parser.c", "parser.c") ∈
      get_artifacts [⟨"src/parser.c", "parse_args"⟩, ⟨"src/parser.c", "init"⟩] true) ∧
    ("src/parser.c", "parser.c").2 = basename ("src/parser.c", "parser.c").1 :=
  ⟨by decide,
   claim_c7_basename [⟨"src/parser.c", "parse_args"⟩, ⟨"src/parser.c", "init"⟩]
     ("src/parser.c", "parser.c") (by decide)⟩

/-! ## Full-text index construction (`__get_index`) -/

/-- One message of the mbox archive: the `message-id` header (absent headers
read as Python `None`, i.e. `none`) and the message part tree. -/
structure MboxMessage where
  messageId : Option String
  root : MPart

/-- Python `str` applied to an optional header value: `str(None)` is the
literal string `"None"`. -/
def pyStr : Option String → String
  | none => "None"
  | some s => s

/-- The document added for one message:
`writer.add_document(messageID=str(message['message-id']),
content=__mbox_getbody(message))`.  Fails when `__mbox_getbody` raises. -/
def mkDoc (decode : List Nat → String) (message : MboxMessage) :
    Except String IxDoc :=
  match mbox_getbody decode message.root with
  | .ok body => .ok ⟨pyStr message.messageId, body⟩
  | .error e => .error e

/-- Filesystem and index operations performed by `__get_index`, recorded as
a trace. -/
inductive IxOp where
  | rmtree
  | makedirs
  | create_in
  | open_dir
  | addDoc (d : IxDoc)
  | commit

/-- The state at the derived index path
`<results_folder>/mbox-index/<basename(mbox_path)>`: whether the directory
exists, whether it contains a valid whoosh index (`index.exists_in`), and
the committed documents. -/
structure IndexFS where
  pathExists : Bool
  hasIndex : Bool
  docs : List IxDoc

/-- Python `whoosh.index.exists_in(path)`: the path exists and holds an
index. -/
def exists_in (fs : IndexFS) : Bool := fs.pathExists && fs.hasIndex

/-- Python `__get_index(mbox, mbox_path, results_folder, schema, reindex)`.
Step 1: if the index path exists and `reindex`, remove it recursively.
Step 2: if the path does not exist or holds no valid index, build — with
`os.makedirs(index_path)` raising `FileExistsError` when the directory is
still there — by creating the index, opening it, adding one document per
message of the archive, and committing once; otherwise open the existing
index.  Returns the final state plus the operation trace. -/
def get_index (decode : List Nat → String) (mbox : List MboxMessage)
    (fs : IndexFS) (reindex : Bool) : Except String (IndexFS × List IxOp) :=
  let cleared : IndexFS × List IxOp :=
    if fs.pathExists && reindex then (⟨false, false, []⟩, [.rmtree])
    else (fs, [])
  let fs1 := cleared.1
  if !fs1.pathExists || !(exists_in fs1) then
    if fs1.pathExists then
      .error "FileExistsError: os.makedirs on existing path"
    else
      match mbox.mapM (mkDoc decode) with
      | .error e => .error e
      | .ok ds =>
        .ok (⟨true, true, ds⟩,
          cleared.2 ++ [.makedirs, .create_in, .open_dir]
            ++ ds.map IxOp.addDoc ++ [.commit])
  else
    .ok (fs1, cleared.2 ++ [.open_dir])

/-- The index-construction algorithm exactly as the specification words it
(`getOrBuildIndex`): if `forceRebuild` is true and a prior index directory
exists at the derived path, delete it recursively first; if no valid index
exists at the derived path (the directory existing and containing an
index), create the directory — creating a directory that already exists
fails —, initialize the index with the schema and open a handle, add one
document per message in the archive, and commit once after all documents
are added; otherwise open and reuse the existing index directory. -/
def spec_get_index (decode : List Nat → String) (mbox : List MboxMessage)
    (fs : IndexFS) (forceRebuild : Bool) : Except String (IndexFS × List IxOp) :=
  let cleared : IndexFS × List IxOp :=
    if forceRebuild && fs.pathExists then (⟨false, false, []⟩, [.rmtree])
    else (fs, [])
  let fs1 := cleared.1
  if !(fs1.pathExists && fs1.hasIndex) then
    if fs1.pathExists then
      .error "FileExistsError: os.makedirs on existing path"
    else
      match mbox.mapM (mkDoc decode) with
      | .error e => .error e
      | .ok ds =>
        .ok (⟨true, true, ds⟩,
          cleared.2 ++ [.makedirs, .create_in, .open_dir]
            ++ ds.map IxOp.addDoc ++ [.commit])
  else
    .ok (fs1, cleared.2 ++ [.open_dir])

/-- C4: `__get_index` follows exactly the specified algorithm — the two
functions agree on every archive, every filesystem state and both values
of the rebuild flag (the delete-then-check order, the build steps with a
single trailing commit, and the reuse branch coincide). -/
theorem claim_c4_get_index_algorithm (decode : List Nat → String)
    (mbox : List MboxMessage) (fs : IndexFS) (reindex : Bool) :
    get_index decode mbox fs reindex = spec_get_index decode mbox fs reindex := by
  obtain ⟨pe, hi, ds⟩ := fs
  cases pe <;> cases hi <;> cases reindex <;> rfl

/-- C9: when the index directory exists on disk but contains no valid index
and `reindex` is false, `__get_index` takes the creation branch and
`os.makedirs` raises on the existing path: no rebuild happens, the call
aborts. -/
theorem claim_c9_stale_dir_aborts (decode : List Nat → String)
    (mbox : List MboxMessage) (ds : List IxDoc) :
    get_index decode mbox ⟨true, false, ds⟩ false =
      .error "FileExistsError: os.makedirs on existing path" := rfl

/-- C10: a message lacking a `message-id` header is indexed under the
literal string `"None"` (`str(None)`), so any two such messages get
identical stored identifiers. -/
theorem claim_c10_missing_id_is_none (decode : List Nat → String)
    (m1 m2 : MboxMessage) (b1 b2 : String)
    (h1 : m1.messageId = none) (h2 : m2.messageId = none)
    (e1 : mbox_getbody decode m1.root = .ok b1)
    (e2 : mbox_getbody decode m2.root = .ok b2) :
    mkDoc decode m1 = .ok ⟨"None", b1⟩ ∧ mkDoc decode m2 = .ok ⟨"None", b2⟩ := by
  constructor <;> simp [mkDoc, e1, e2, pyStr, h1, h2]

/-- C10 witness messages: two distinct messages, both without a
`message-id` header. -/
def c10Msg1 : MboxMessage := ⟨none, MPart.leaf "text/plain" [104, 105]⟩

/-- Second C10 witness message. -/
def c10Msg2 : MboxMessage := ⟨none, MPart.leaf "text/html" [104]⟩

/-- C10 witness: both concrete id-less messages are stored under the same
identifier `"None"`. -/
theorem claim_c10_missing_id_is_none_witness :
    c10Msg1.messageId = none ∧ c10Msg2.messageId = none ∧
    mbox_getbody decodeAscii c10Msg1.root = .ok "hi" ∧
    mbox_getbody decodeAscii c10Msg2.root = .ok "h" ∧
    mkDoc decodeAscii c10Msg1 = .ok ⟨"None", "hi"⟩ ∧
    mkDoc decodeAscii c10Msg2 = .ok ⟨"None", "h"⟩ := by
  refine ⟨rfl, rfl, rfl, rfl, ?_, ?_⟩ <;>
    [exact (claim_c10_missing_id_is_none decodeAscii c10Msg1 c10Msg2 "hi" "h"
      rfl rfl rfl rfl).1;
     exact (claim_c10_missing_id_is_none decodeAscii c10Msg1 c10Msg2 "hi" "h"
      rfl rfl rfl rfl).2]

/-! ## Result assembly in `parse` and `csv_writer.write_to_csv` -/

/-- The header row appended by `parse` when `append_result` is false. -/
def headerRow : String × String × String := ("file", "artifact", "messageID")

/-- The `result` list built by `parse` after the search phase: the header
row when not appending, then every row of every per-artifact hit list. -/
def parse_assemble (append_result : Bool)
    (csv_data : List (List (String × String × String))) :
    List (String × String × String) :=
  (if append_result then [] else [headerRow]) ++ csv_data.flatten

/-- Python `csv_writer.write_to_csv(file_path, lines, append)`: open the
output in mode `"a"` or `"w"` and write all lines — modelled on the file's
row contents (mode `"w"` discards the previous contents). -/
def write_to_csv (oldContents lines : List (String × String × String))
    (append : Bool) : List (String × String × String) :=
  if append then oldContents ++ lines else lines

/-- File contents after running the pipeline twice: first run with
`append_result = False` (fresh file), second with `append_result = True`. -/
def two_run_output (old : List (String × String × String))
    (d1 d2 : List (List (String × String × String))) :
    List (String × String × String) :=
  write_to_csv (write_to_csv old (parse_assemble false d1) false)
    (parse_assemble true d2) true

/-- Number of occurrences of a row in a file (decidable-equality count). -/
def countRow (x : String × String × String)
    (l : List (String × String × String)) : Nat :=
  l.countP (fun r => decide (r = x))

/-- C8: the header is written only on the fresh-file run, so two runs (the
second appending) leave the header row exactly once, at the top, followed
by the first-run rows and then the second-run rows; the row count is the
two data-row counts plus one. -/
theorem claim_c8_single_header (old : List (String × String × String))
    (d1 d2 : List (List (String × String × String)))
    (h1 : headerRow ∉ d1.flatten) (h2 : headerRow ∉ d2.flatten) :
    two_run_output old d1 d2 = headerRow :: (d1.flatten ++ d2.flatten) ∧
    (two_run_output old d1 d2).length = d1.flatten.length + d2.flatten.length + 1 ∧
    countRow headerRow (two_run_output old d1 d2) = 1 := by
  have he : two_run_output old d1 d2 = headerRow :: (d1.flatten ++ d2.flatten) := rfl
  refine ⟨he, ?_, ?_⟩
  · rw [he]
    simp [List.length_append]
  · rw [he, countRow, List.countP_cons]
    have hz : (d1.flatten ++ d2.flatten).countP (fun r => decide (r = headerRow)) = 0 := by
      rw [List.countP_eq_zero]
      intro a ha
      rcases List.mem_append.mp ha with ha1 | ha2
      · simp only [decide_eq_true_eq]
        intro hEq
        exact h1 (hEq ▸ ha1)
      · simp only [decide_eq_true_eq]
        intro hEq
        exact h2 (hEq ▸ ha2)
    simp [hz]

/-- C8 witness: concrete prior contents and two runs of one data row each. -/
theorem claim_c8_single_header_witness :
    (headerRow ∉ ([[("src/a.c", "foo", "m1")]] :
        List (List (String × String × String))).flatten) ∧
    (headerRow ∉ ([[("src/b.c", "bar", "m2")], []] :
        List (List (String × String × String))).flatten) ∧
    two_run_output [("stale", "stale", "stale")]
        [[("src/a.c", "foo", "m1")]] [[("src/b.c", "bar", "m2")], []] =
      headerRow :: ([("src/a.c", "foo", "m1")] ++ [("src/b.c", "bar", "m2")]) :=
  ⟨by decide, by decide,
   (claim_c8_single_header [("stale", "stale", "stale")]
     [[("src/a.c", "foo", "m1")]] [[("src/b.c", "bar", "m2")], []]
     (by decide) (by decide)).1⟩
